import Mathlib

/-!
Verification of the playback & sequencing engine of `mpc-cli`.

The development shallowly embeds the two core components:

* `Sequencer` (src/sequencer/sequencer.cpp): records timestamped trigger
  events and replays them on a looping clock.  `double`-valued durations
  (`std::chrono::duration<double>`) are modelled as rationals, and
  `std::fmod` as `cFmod` (truncated-quotient remainder, which agrees with
  the C library `fmod` on these arguments).
* `AudioProcessor` / `AudioPipeline` (src/audio-processor/audio_processor.cpp,
  src/gstreamer implementation): a registry of per-key playback voices.
  The external world (filesystem, GStreamer backend) is a parameter `Env`;
  the GStreamer transport state that `start()`/`setPitch()` manipulate
  (seek position, playback rate) is carried explicitly in the state.

Callbacks are modelled by returning the list of events that the code would
have passed to the callback, in invocation order.
-/

/-- `struct SequencePoint { char _key; std::chrono::duration<double> _timeFromStart; double _pitch; }`. -/
structure SequencePoint where
  key : Char
  timeFromStart : ℚ
  pitch : ℚ
deriving DecidableEq

/-- The fields of class `Sequencer`.  `_currentSequenceIndex` is the extra
atomic index the source declares alongside `_currentIndex`; `tick()` only
ever reads `_currentIndex`. -/
structure SequencerState where
  playing : Bool
  recording : Bool
  sequenceRecordStartTime : ℚ
  sequencePlayStartTime : ℚ
  sequenceLength : ℚ
  previousPlayPosition : ℚ
  currentSequenceIndex : ℕ
  currentIndex : ℕ
  sequencePoints : List SequencePoint
deriving DecidableEq

/-- Truncation toward zero, as C's conversion in `fmod`
(`Rat.floor`/`Rat.ceil` are the executable floor and ceiling). -/
def cTrunc (x : ℚ) : ℤ := if 0 ≤ x.num then x.floor else x.ceil

/-- `std::fmod x y = x - y * trunc (x / y)` (exact for the rational model). -/
def cFmod (x y : ℚ) : ℚ := x - y * cTrunc (x / y)

/-- `Sequencer::togglePlaying()`, with the clock reading `now` passed in. -/
def togglePlaying (now : ℚ) (s : SequencerState) : SequencerState :=
  if s.playing then
    { s with currentSequenceIndex := 0
             previousPlayPosition := -1/1000
             playing := false }
  else
    { s with sequencePlayStartTime := now
             currentSequenceIndex := 0
             currentIndex := 0
             previousPlayPosition := -1/1000
             playing := true }

/-- `Sequencer::recordKey(key, pitch)`. -/
def recordKey (now : ℚ) (key : Char) (pitch : ℚ) (s : SequencerState) : SequencerState :=
  if s.recording then
    { s with sequencePoints :=
        s.sequencePoints ++ [⟨key, now - s.sequenceRecordStartTime, pitch⟩] }
  else s

/-- Result of the `while` loop of `Sequencer::tick()` run over the suffix of
the sequence that starts at the cursor: the consecutive run of points whose
`_timeFromStart <= currentPosition`, in order.  Each returned point is one
`_keyTriggerCallback(pt._key, pt._pitch)` invocation. -/
def playLoop (pos : ℚ) : List SequencePoint → List SequencePoint
  | [] => []
  | pt :: rest =>
      if pt.timeFromStart ≤ pos then pt :: playLoop pos rest else []

/-- `Sequencer::tick()`, with the clock reading `now` passed in.  Returns the
new state together with the points fired (callback invocations) this tick. -/
def tick (now : ℚ) (s : SequencerState) : SequencerState × List SequencePoint :=
  if s.playing = false then (s, [])
  else
    let timeSinceStart := now - s.sequencePlayStartTime
    if s.sequenceLength ≤ 0 ∨ s.sequencePoints = [] then (s, [])
    else
      let currentPosition := cFmod timeSinceStart s.sequenceLength
      let startIdx := if currentPosition < s.previousPlayPosition then 0
                      else s.currentIndex
      let fired := playLoop currentPosition (s.sequencePoints.drop startIdx)
      ({ s with currentIndex := startIdx + fired.length
                previousPlayPosition := currentPosition }, fired)

/-- The sortedness that `std::sort` with comparator
`a._timeFromStart < b._timeFromStart` guarantees for its output:
non-decreasing `_timeFromStart`. -/
def sortedByTime (l : List SequencePoint) : Prop :=
  l.Pairwise (fun a b => a.timeFromStart ≤ b.timeFromStart)

instance (l : List SequencePoint) : Decidable (sortedByTime l) :=
  List.instDecidablePairwise l

/-- The complete contract of `std::sort(first, last, comp)` with the
source's comparator: the output is a permutation of the input that is
sorted for the comparator.  The C++ standard guarantees nothing further;
in particular the relative order of elements with equal keys is
unspecified (`std::sort` is not stable). -/
def StdSortResult (inp out : List SequencePoint) : Prop :=
  inp.Perm out ∧ sortedByTime out

/-- `Sequencer::toggleRecording()` as a relation from pre- to post-state
(relational only because of the `std::sort` call; everything else is
deterministic).  `now` is the clock reading taken at entry; `nowPlay` the
slightly later reading taken inside the nested `togglePlaying()` call. -/
def ToggleRecording (now nowPlay : ℚ) (s s' : SequencerState) : Prop :=
  if s.recording then
    ∃ sorted, StdSortResult s.sequencePoints sorted ∧
      s' = togglePlaying nowPlay
             { s with sequenceLength := now - s.sequenceRecordStartTime
                      recording := false
                      sequencePoints := sorted }
  else
    s' = { s with sequenceRecordStartTime := now
                  sequenceLength := 0
                  sequencePoints := []
                  recording := true }

/-- Run `tick()` at each of the given clock readings in order, concatenating
the callback invocations. -/
def runTicks : List ℚ → SequencerState → SequencerState × List SequencePoint
  | [], s => (s, [])
  | t :: ts, s =>
      let r := tick t s
      let r2 := runTicks ts r.1
      (r2.1, r.2 ++ r2.2)

/-- Last element of `a :: es` (the elapsed time of the final tick of a run). -/
def lastD (a : ℚ) : List ℚ → ℚ
  | [] => a
  | e :: es => lastD e es

/-- Number of callback invocations for points recorded at time 0. -/
def countZeroFires (evs : List SequencePoint) : ℕ :=
  evs.countP (fun pt => decide (pt.timeFromStart = 0))

/-! ## Audio processor / pipeline model -/

/-- The external world as seen by `AudioPipeline`'s constructor:
`std::filesystem::exists` and whether GStreamer can build and pre-roll a
pipeline for the file (`createPipeline()` succeeding). -/
structure Env where
  fileExists : String → Bool
  prepareOk : String → Bool

/-- The fields of `AudioPipeline` relevant to playback, plus the GStreamer
transport state its methods manipulate: `position` is the stream position
(`gst_element_seek` with `GST_SEEK_TYPE_SET, 0` resets it to 0) and
`currentRatePitch` is the semitone value whose rate `2^(semitones/12)` the
most recent seek applied. -/
structure AudioPipeline where
  filePath : String
  volume : ℚ
  pitchSemitones : ℚ
  currentRatePitch : ℚ
  position : ℚ
  isPlaying : Bool
  pipelineCreated : Bool
deriving DecidableEq

/-- The `AudioPipeline` constructor: throws (`Except.error`) if the file
does not exist or `createPipeline()` fails; otherwise yields a prepared,
pre-buffered, non-playing pipeline. -/
def AudioPipeline.create (env : Env) (path : String) (vol : ℚ) :
    Except String AudioPipeline :=
  if env.fileExists path = false then
    Except.error ("Audio file does not exist: " ++ path)
  else if env.prepareOk path = false then
    Except.error ("Failed to create pipeline for: " ++ path)
  else
    Except.ok { filePath := path
                volume := vol
                pitchSemitones := 0
                currentRatePitch := 0
                position := 0
                isPlaying := false
                pipelineCreated := true }

/-- `AudioPipeline::setPitch(semitones)`: stores the value; the rate
`2^(semitones/12)` is applied by the seek on the next `start()`. -/
def AudioPipeline.setPitch (semitones : ℚ) (pl : AudioPipeline) : AudioPipeline :=
  { pl with pitchSemitones := semitones }

/-- `AudioPipeline::setVolume(volume)`: stores the value and pushes it to
the volume element.  The source performs no clamping. -/
def AudioPipeline.setVolume (volume : ℚ) (pl : AudioPipeline) : AudioPipeline :=
  { pl with volume := volume }

/-- `AudioPipeline::start()`: fails if the pipeline was never created;
otherwise seeks to position 0 with rate `2^(pitch_semitones_/12)` (this
restarts the single pipeline even when it is already playing — there is
only one pipeline per voice, so nothing is layered) and ensures the
PLAYING state. -/
def AudioPipeline.start (pl : AudioPipeline) : AudioPipeline × Bool :=
  if pl.pipelineCreated = false then (pl, false)
  else
    ({ pl with position := 0
               currentRatePitch := pl.pitchSemitones
               isPlaying := true }, true)

/-- The fields of `AudioProcessor`: `std::map` contents modelled as
association lists with `map[k] = v` update semantics. -/
structure AudioProcessor where
  sampleMap : List (Char × String)
  pipelines : List (Char × AudioPipeline)
deriving DecidableEq

/-- `map[k] = v` on an association list: replace the binding if present,
else append. -/
def insertAssoc {α : Type} (k : Char) (v : α) : List (Char × α) → List (Char × α)
  | [] => [(k, v)]
  | (k', v') :: rest =>
      if k' = k then (k, v) :: rest else (k', v') :: insertAssoc k v rest

/-- `map.find(k)` on an association list. -/
def lookupAssoc {α : Type} (k : Char) : List (Char × α) → Option α
  | [] => none
  | (k', v') :: rest => if k' = k then some v' else lookupAssoc k rest

/-- `AudioProcessor::registerSample(key, audio_file, volume)`: records the
sample name unconditionally, then tries to construct the pipeline; a
constructor exception is caught and logged, leaving `pipelines_`
untouched. -/
def registerSample (env : Env) (key : Char) (audioFile : String) (volume : ℚ)
    (ap : AudioProcessor) : AudioProcessor :=
  let withSample := { ap with sampleMap := insertAssoc key audioFile ap.sampleMap }
  match AudioPipeline.create env audioFile volume with
  | Except.ok pl => { withSample with pipelines := insertAssoc key pl withSample.pipelines }
  | Except.error _ => withSample

/-- `AudioProcessor::playSampleWithPitch(key, semitones)`: not-found keys
return `false`; otherwise set pitch then `start()` on the voice. -/
def playSampleWithPitch (key : Char) (semitones : ℚ) (ap : AudioProcessor) :
    AudioProcessor × Bool :=
  match lookupAssoc key ap.pipelines with
  | none => (ap, false)
  | some pl =>
      let r := (AudioPipeline.setPitch semitones pl).start
      ({ ap with pipelines := insertAssoc key r.1 ap.pipelines }, r.2)

/-- `AudioProcessor::playSample(key)`: resets pitch to 0 before starting. -/
def playSample (key : Char) (ap : AudioProcessor) : AudioProcessor × Bool :=
  match lookupAssoc key ap.pipelines with
  | none => (ap, false)
  | some pl =>
      let r := (AudioPipeline.setPitch 0 pl).start
      ({ ap with pipelines := insertAssoc key r.1 ap.pipelines }, r.2)

/-! ## Arithmetic facts about `cFmod` -/

theorem cTrunc_of_nonneg {x : ℚ} (h : 0 ≤ x) : cTrunc x = ⌊x⌋ := by
  rw [cTrunc, if_pos (Rat.num_nonneg.mpr h), Rat.floor_def', Rat.floor_def]

theorem cFmod_eq_sub_floor {x y : ℚ} (hx : 0 ≤ x) (hy : 0 < y) :
    cFmod x y = x - y * ⌊x / y⌋ := by
  rw [cFmod, cTrunc_of_nonneg (div_nonneg hx hy.le)]

theorem cFmod_eq_fract {x y : ℚ} (hx : 0 ≤ x) (hy : 0 < y) :
    cFmod x y = y * Int.fract (x / y) := by
  rw [cFmod_eq_sub_floor hx hy, Int.fract, mul_sub, mul_div_cancel₀ _ hy.ne']

theorem cFmod_nonneg {x y : ℚ} (hx : 0 ≤ x) (hy : 0 < y) : 0 ≤ cFmod x y := by
  rw [cFmod_eq_fract hx hy]
  exact mul_nonneg hy.le (Int.fract_nonneg _)

theorem cFmod_lt {x y : ℚ} (hx : 0 ≤ x) (hy : 0 < y) : cFmod x y < y := by
  rw [cFmod_eq_fract hx hy]
  have h := mul_lt_mul_of_pos_left (Int.fract_lt_one (x / y)) hy
  rwa [mul_one] at h

theorem floor_div_eq_zero {e L : ℚ} (h0 : 0 ≤ e) (hL : 0 < L) (heL : e < L) :
    ⌊e / L⌋ = 0 := by
  rw [Int.floor_eq_zero_iff]
  exact ⟨div_nonneg h0 hL.le, (div_lt_one hL).mpr heL⟩

/-- Between two clock readings less than one sequence length apart, the
playhead position either advances inside the same loop iteration (equal
floors of `elapsed / L`) or crosses exactly one loop boundary, in which
case — and only in which case — the new position is strictly below the old
one.  This is why `position < previous_position` is a sound and complete
wrap detector for tick gaps below the sequence length. -/
theorem cFmod_step {L a b : ℚ} (hL : 0 < L) (ha : 0 ≤ a) (hab : a ≤ b)
    (hgap : b - a < L) :
    (⌊b / L⌋ = ⌊a / L⌋ ∧ cFmod a L ≤ cFmod b L) ∨
    (⌊b / L⌋ = ⌊a / L⌋ + 1 ∧ cFmod b L < cFmod a L) := by
  have hb : 0 ≤ b := ha.trans hab
  have hdiv : a / L ≤ b / L := by gcongr
  have h1 : ⌊a / L⌋ ≤ ⌊b / L⌋ := Int.floor_le_floor hdiv
  have h2 : b / L < a / L + 1 := by
    have hb' : b / L < (a + L) / L := by gcongr; linarith
    rwa [add_div, div_self hL.ne'] at hb'
  have h3 : ⌊b / L⌋ ≤ ⌊a / L⌋ + 1 := by
    have h := Int.floor_le_floor h2.le
    rwa [Int.floor_add_one] at h
  have hfa : cFmod a L = a - L * ⌊a / L⌋ := cFmod_eq_sub_floor ha hL
  have hfb : cFmod b L = b - L * ⌊b / L⌋ := cFmod_eq_sub_floor hb hL
  rcases lt_or_eq_of_le h1 with hlt | heq
  · right
    have heq1 : ⌊b / L⌋ = ⌊a / L⌋ + 1 := by omega
    refine ⟨heq1, ?_⟩
    rw [hfa, hfb, heq1]
    push_cast
    linarith
  · left
    refine ⟨heq.symm, ?_⟩
    rw [hfa, hfb, ← heq]
    linarith

/-! ## Facts about the tick scan -/

theorem playLoop_subset {pos : ℚ} :
    ∀ {l : List SequencePoint} {q : SequencePoint}, q ∈ playLoop pos l → q ∈ l := by
  intro l
  induction l with
  | nil => intro q hq; simp [playLoop] at hq
  | cons pt rest ih =>
      intro q hq
      rw [playLoop] at hq
      by_cases hle : pt.timeFromStart ≤ pos
      · rw [if_pos hle, List.mem_cons] at hq
        rcases hq with h | h
        · exact h ▸ List.mem_cons_self pt rest
        · exact List.mem_cons_of_mem pt (ih h)
      · rw [if_neg hle] at hq
        simp at hq

theorem playLoop_cons_of_le {pos : ℚ} {pt : SequencePoint} {rest : List SequencePoint}
    (h : pt.timeFromStart ≤ pos) :
    playLoop pos (pt :: rest) = pt :: playLoop pos rest := by
  rw [playLoop, if_pos h]

theorem countZeroFires_append (l₁ l₂ : List SequencePoint) :
    countZeroFires (l₁ ++ l₂) = countZeroFires l₁ + countZeroFires l₂ :=
  List.countP_append _ _ _

theorem countZeroFires_eq_zero {l : List SequencePoint}
    (h : ∀ q ∈ l, 0 < q.timeFromStart) : countZeroFires l = 0 := by
  rw [countZeroFires, List.countP_eq_zero]
  intro q hq
  simpa using (h q hq).ne'

theorem countZeroFires_playLoop {pos : ℚ} {l : List SequencePoint}
    (h : ∀ q ∈ l, 0 < q.timeFromStart) : countZeroFires (playLoop pos l) = 0 :=
  countZeroFires_eq_zero (fun q hq => h q (playLoop_subset hq))

/-- In a sorted sequence, every point whose time has been reached is fired
by the scan that starts at the head. -/
theorem mem_playLoop_of_sorted {pos : ℚ} :
    ∀ {l : List SequencePoint}, sortedByTime l →
      ∀ {p : SequencePoint}, p ∈ l → p.timeFromStart ≤ pos → p ∈ playLoop pos l := by
  intro l
  induction l with
  | nil => intro _ p hp; simp at hp
  | cons pt rest ih =>
      intro hsort p hp hple
      rcases List.mem_cons.mp hp with rfl | hmem
      · rw [playLoop_cons_of_le hple]
        exact List.mem_cons_self _ _
      · have hhead : pt.timeFromStart ≤ pos :=
          le_trans ((List.pairwise_cons.mp hsort).1 p hmem) hple
        rw [playLoop_cons_of_le hhead]
        exact List.mem_cons_of_mem _ (ih (List.pairwise_cons.mp hsort).2 hmem hple)

theorem le_lastD {L : ℚ} :
    ∀ (es : List ℚ) (a : ℚ), List.Chain (fun x y => x ≤ y ∧ y - x < L) a es →
      a ≤ lastD a es := by
  intro es
  induction es with
  | nil => intro a _; exact le_rfl
  | cons e es ih =>
      intro a hchain
      rcases List.chain_cons.mp hchain with ⟨⟨hae, _⟩, hchain'⟩
      exact le_trans hae (ih e hchain')

/-- `tick()` on a playing, non-degenerate state, no wrap detected. -/
theorem tick_no_wrap {now : ℚ} {s : SequencerState} {pos : ℚ}
    (hpos : pos = cFmod (now - s.sequencePlayStartTime) s.sequenceLength)
    (hplay : s.playing = true) (hlen : ¬ s.sequenceLength ≤ 0)
    (hpts : s.sequencePoints ≠ [])
    (hw : ¬ pos < s.previousPlayPosition) :
    tick now s =
      ({ s with currentIndex :=
                  s.currentIndex + (playLoop pos (s.sequencePoints.drop s.currentIndex)).length
                previousPlayPosition := pos },
       playLoop pos (s.sequencePoints.drop s.currentIndex)) := by
  subst hpos
  simp [tick, hplay, hlen, hpts, hw]

/-- `tick()` on a playing, non-degenerate state, wrap detected: the cursor
is reset to 0 and the scan restarts from the head of the sequence. -/
theorem tick_wrap {now : ℚ} {s : SequencerState} {pos : ℚ}
    (hpos : pos = cFmod (now - s.sequencePlayStartTime) s.sequenceLength)
    (hplay : s.playing = true) (hlen : ¬ s.sequenceLength ≤ 0)
    (hpts : s.sequencePoints ≠ [])
    (hw : pos < s.previousPlayPosition) :
    tick now s =
      ({ s with currentIndex := (playLoop pos s.sequencePoints).length
                previousPlayPosition := pos },
       playLoop pos s.sequencePoints) := by
  subst hpos
  simp [tick, hplay, hlen, hpts, hw]

/-- Core counting invariant for the wrap-around claim: from a state whose
cursor has already passed the head point in the current loop iteration
(cursor ≥ 1, previous position recorded at elapsed time `a`), a run of
ticks whose elapsed times advance by less than one sequence length per
tick fires the time-0 head point exactly once per loop boundary crossed. -/
theorem runTicks_zero_count {T L : ℚ} {p₀ : SequencePoint} {rest : List SequencePoint}
    (hL : 0 < L) (hp₀ : p₀.timeFromStart = 0)
    (hrest : ∀ q ∈ rest, 0 < q.timeFromStart) :
    ∀ (es : List ℚ) (a : ℚ) (s : SequencerState),
      0 ≤ a →
      s.playing = true → s.sequencePlayStartTime = T → s.sequenceLength = L →
      s.sequencePoints = p₀ :: rest → s.previousPlayPosition = cFmod a L →
      1 ≤ s.currentIndex →
      List.Chain (fun x y => x ≤ y ∧ y - x < L) a es →
      countZeroFires (runTicks (es.map (fun e => T + e)) s).2
        = (⌊lastD a es / L⌋ - ⌊a / L⌋).toNat := by
  intro es
  induction es with
  | nil =>
      intro a s _ _ _ _ _ _ _ _
      simp [runTicks, lastD, countZeroFires]
  | cons e es ih =>
      intro a s ha hplay hT hlen' hpts hprev hidx hchain
      rcases List.chain_cons.mp hchain with ⟨⟨hae, hgap⟩, hchain'⟩
      have he : 0 ≤ e := ha.trans hae
      have hlen : ¬ s.sequenceLength ≤ 0 := by rw [hlen']; exact not_le.mpr hL
      have hptsne : s.sequencePoints ≠ [] := by rw [hpts]; exact List.cons_ne_nil _ _
      have hposeq : cFmod e L = cFmod (T + e - s.sequencePlayStartTime) s.sequenceLength := by
        rw [hT, hlen', add_sub_cancel_left]
      have hlastfl : ⌊e / L⌋ ≤ ⌊lastD e es / L⌋ := by
        have h1 : e ≤ lastD e es := le_lastD es e hchain'
        exact Int.floor_le_floor (by gcongr)
      rcases cFmod_step hL ha hae hgap with ⟨hfl, hle⟩ | ⟨hfl, hlt⟩
      · -- same loop iteration: no wrap is detected and the head does not re-fire
        have hw : ¬ cFmod e L < s.previousPlayPosition := by
          rw [hprev]; exact not_lt.mpr hle
        have htick := @tick_no_wrap (T + e) s (cFmod e L) hposeq hplay hlen hptsne hw
        obtain ⟨k, hk⟩ : ∃ k, s.currentIndex = k + 1 :=
          ⟨s.currentIndex - 1, by omega⟩
        have hdropped : s.sequencePoints.drop s.currentIndex = rest.drop k := by
          rw [hpts, hk, List.drop_succ_cons]
        have hcount0 : countZeroFires (playLoop (cFmod e L)
            (s.sequencePoints.drop s.currentIndex)) = 0 := by
          rw [hdropped]
          exact countZeroFires_playLoop (fun q hq => hrest q (List.drop_subset k rest hq))
        simp only [List.map_cons, runTicks, htick]
        rw [countZeroFires_append, hcount0, Nat.zero_add]
        rw [ih e _ he (by simpa using hplay) (by simpa using hT) (by simpa using hlen')
              (by simpa using hpts) (by simp) (by simp; omega) hchain']
        rw [lastD, hfl]
      · -- boundary crossed: the wrap is detected and the head fires once
        have hw : cFmod e L < s.previousPlayPosition := by rw [hprev]; exact hlt
        have htick := @tick_wrap (T + e) s (cFmod e L) hposeq hplay hlen hptsne hw
        have hheadle : p₀.timeFromStart ≤ cFmod e L := by
          rw [hp₀]; exact cFmod_nonneg he hL
        have hfired : playLoop (cFmod e L) s.sequencePoints
            = p₀ :: playLoop (cFmod e L) rest := by
          rw [hpts, playLoop_cons_of_le hheadle]
        have hcount1 : countZeroFires (playLoop (cFmod e L) s.sequencePoints) = 1 := by
          rw [hfired, countZeroFires, List.countP_cons_of_pos _ _ (by simp [hp₀]),
              ← countZeroFires, countZeroFires_playLoop hrest]
        simp only [List.map_cons, runTicks, htick]
        rw [countZeroFires_append, hcount1]
        rw [ih e _ he (by simpa using hplay) (by simpa using hT) (by simpa using hlen')
              (by simpa using hpts) (by simp) (by simp [hfired]) hchain']
        rw [lastD]
        omega

/-- C1: during playback a wrap is detected exactly when the computed
position drops below the stored previous position, and then the cursor is
reset to 0 (the tick rescans from the head); consequently, for a sequence
of length `L` headed by its unique point at `t = 0`, a run of `tick()`
calls that starts within the first loop iteration and whose clock readings
advance by less than `L` per call fires the `t = 0` point exactly once per
loop iteration entered, i.e. `⌊e_last / L⌋ + 1` times — never zero, never
twice. -/
theorem wrap_detect_and_zero_point_once_per_loop
    (T L e₁ : ℚ) (p₀ : SequencePoint) (rest : List SequencePoint)
    (s : SequencerState) (es : List ℚ)
    (hL : 0 < L) (hp₀ : p₀.timeFromStart = 0)
    (hrest : ∀ q ∈ rest, 0 < q.timeFromStart)
    (hplay : s.playing = false) (hlen : s.sequenceLength = L)
    (hpts : s.sequencePoints = p₀ :: rest)
    (he₁ : 0 ≤ e₁) (he₁L : e₁ < L)
    (hchain : List.Chain (fun x y => x ≤ y ∧ y - x < L) e₁ es) :
    (∀ (now : ℚ) (u : SequencerState),
        u.playing = true → ¬ u.sequenceLength ≤ 0 → u.sequencePoints ≠ [] →
        cFmod (now - u.sequencePlayStartTime) u.sequenceLength
            < u.previousPlayPosition →
        (tick now u).1.currentIndex
            = (playLoop (cFmod (now - u.sequencePlayStartTime) u.sequenceLength)
                u.sequencePoints).length ∧
        (tick now u).2
            = playLoop (cFmod (now - u.sequencePlayStartTime) u.sequenceLength)
                u.sequencePoints)
    ∧ countZeroFires
        (runTicks ((e₁ :: es).map (fun e => T + e)) (togglePlaying T s)).2
        = (⌊lastD e₁ es / L⌋ + 1).toNat := by
  constructor
  · intro now u hplay' hlen' hpts' hw
    rw [tick_wrap rfl hplay' hlen' hpts' hw]
    exact ⟨rfl, rfl⟩
  · have hs₀ : togglePlaying T s =
        { s with sequencePlayStartTime := T
                 currentSequenceIndex := 0
                 currentIndex := 0
                 previousPlayPosition := -1/1000
                 playing := true } := by
      simp [togglePlaying, hplay]
    rw [hs₀]
    have hposnn : 0 ≤ cFmod e₁ L := cFmod_nonneg he₁ hL
    have hpos1 : cFmod e₁ L =
        cFmod (T + e₁ - ({ s with sequencePlayStartTime := T
                                  currentSequenceIndex := 0
                                  currentIndex := 0
                                  previousPlayPosition := -1/1000
                                  playing := true } : SequencerState).sequencePlayStartTime)
          ({ s with sequencePlayStartTime := T
                    currentSequenceIndex := 0
                    currentIndex := 0
                    previousPlayPosition := -1/1000
                    playing := true } : SequencerState).sequenceLength := by
      simp [hlen, add_sub_cancel_left]
    have htick := tick_no_wrap hpos1 (by simp) (by simp [hlen]; linarith)
      (by simp [hpts]) (by simp; linarith)
    have hfired1 : playLoop (cFmod e₁ L) (s.sequencePoints.drop 0)
        = p₀ :: playLoop (cFmod e₁ L) rest := by
      rw [List.drop_zero, hpts, playLoop_cons_of_le (by rw [hp₀]; exact hposnn)]
    have hcount1 : countZeroFires (playLoop (cFmod e₁ L) (s.sequencePoints.drop 0)) = 1 := by
      rw [hfired1, countZeroFires, List.countP_cons_of_pos _ _ (by simp [hp₀]),
          ← countZeroFires, countZeroFires_playLoop hrest]
    have hlast0 : 0 ≤ ⌊lastD e₁ es / L⌋ := by
      have h1 : e₁ ≤ lastD e₁ es := le_lastD es e₁ hchain
      exact Int.floor_nonneg.mpr (div_nonneg (he₁.trans h1) hL.le)
    simp only [List.map_cons, runTicks, htick]
    rw [countZeroFires_append]
    simp only [List.drop_zero] at hcount1 hfired1 ⊢
    rw [hcount1]
    rw [runTicks_zero_count hL hp₀ hrest es e₁ _ he₁ (by simp) (by simp) (by simp [hlen])
          (by simp [hpts]) (by simp) (by simp [hfired1]) hchain]
    rw [floor_div_eq_zero he₁ hL he₁L]
    omega

/-- A concrete two-point sequence for witnesses: head point at `t = 0`. -/
def pQ : SequencePoint := ⟨'q', 0, 0⟩

/-- Second concrete point, at `t = 2` of a length-3 sequence. -/
def pR : SequencePoint := ⟨'r', 2, 0⟩

/-- A stopped sequencer holding the recorded two-point sequence of length 3. -/
def sC1 : SequencerState :=
  { playing := false
    recording := false
    sequenceRecordStartTime := 0
    sequencePlayStartTime := 0
    sequenceLength := 3
    previousPlayPosition := 0
    currentSequenceIndex := 0
    currentIndex := 0
    sequencePoints := [pQ, pR] }

theorem wrap_detect_and_zero_point_once_per_loop_witness :
    ((0:ℚ) < 3 ∧ pQ.timeFromStart = 0 ∧ sC1.playing = false ∧
      List.Chain (fun x y => x ≤ y ∧ y - x < 3) 0 [2, 3, 5]) ∧
    ((∀ (now : ℚ) (u : SequencerState),
        u.playing = true → ¬ u.sequenceLength ≤ 0 → u.sequencePoints ≠ [] →
        cFmod (now - u.sequencePlayStartTime) u.sequenceLength
            < u.previousPlayPosition →
        (tick now u).1.currentIndex
            = (playLoop (cFmod (now - u.sequencePlayStartTime) u.sequenceLength)
                u.sequencePoints).length ∧
        (tick now u).2
            = playLoop (cFmod (now - u.sequencePlayStartTime) u.sequenceLength)
                u.sequencePoints)
    ∧ countZeroFires
        (runTicks ((((0:ℚ) :: [2, 3, 5]).map (fun e => 0 + e)) ) (togglePlaying 0 sC1)).2
        = (⌊lastD 0 [2, 3, 5] / 3⌋ + 1).toNat) :=
  ⟨⟨by norm_num, rfl, rfl, by norm_num [List.chain_cons]⟩,
    wrap_detect_and_zero_point_once_per_loop 0 3 0 pQ [pR] sC1 [2, 3, 5]
      (by norm_num) rfl
      (by intro q hq; rw [List.mem_singleton] at hq; subst hq; norm_num [pR])
      rfl rfl rfl le_rfl (by norm_num) (by norm_num [List.chain_cons])⟩

/-- C4: a point recorded at `time_from_start = 0` in a sorted, positive
length sequence fires on the very first `tick()` after `togglePlaying()`
starts playback, even when that tick runs immediately (`now = T`, computed
position 0): the scan starts at cursor 0 and `0 <= position` always
admits the point. -/
theorem zero_point_fires_on_first_tick
    (T now : ℚ) (s : SequencerState) (p : SequencePoint)
    (hplay : s.playing = false)
    (hL : 0 < s.sequenceLength)
    (hsorted : sortedByTime s.sequencePoints)
    (hmem : p ∈ s.sequencePoints) (hp : p.timeFromStart = 0)
    (hnow : T ≤ now) :
    p ∈ (tick now (togglePlaying T s)).2 := by
  have hs₀ : togglePlaying T s =
      { s with sequencePlayStartTime := T
               currentSequenceIndex := 0
               currentIndex := 0
               previousPlayPosition := -1/1000
               playing := true } := by
    simp [togglePlaying, hplay]
  rw [hs₀]
  have hposnn : 0 ≤ cFmod (now - T) s.sequenceLength :=
    cFmod_nonneg (by linarith) hL
  have hpos1 : cFmod (now - T) s.sequenceLength =
      cFmod (now - ({ s with sequencePlayStartTime := T
                             currentSequenceIndex := 0
                             currentIndex := 0
                             previousPlayPosition := -1/1000
                             playing := true } : SequencerState).sequencePlayStartTime)
        ({ s with sequencePlayStartTime := T
                  currentSequenceIndex := 0
                  currentIndex := 0
                  previousPlayPosition := -1/1000
                  playing := true } : SequencerState).sequenceLength := by
    simp
  have htick := tick_no_wrap hpos1 (by simp) (by simp; linarith)
    (by simpa using List.ne_nil_of_mem hmem) (by simp; linarith)
  rw [htick]
  simp only [List.drop_zero]
  exact mem_playLoop_of_sorted hsorted hmem (by rw [hp]; exact hposnn)

theorem zero_point_fires_on_first_tick_witness :
    (sC1.playing = false ∧ (0:ℚ) < sC1.sequenceLength ∧ sortedByTime sC1.sequencePoints ∧
      pQ ∈ sC1.sequencePoints ∧ pQ.timeFromStart = 0) ∧
    pQ ∈ (tick 0 (togglePlaying 0 sC1)).2 :=
  ⟨⟨rfl, by norm_num [sC1], by norm_num [sortedByTime, sC1, pQ, pR],
      by simp [sC1], rfl⟩,
    zero_point_fires_on_first_tick 0 0 sC1 pQ rfl (by norm_num [sC1])
      (by norm_num [sortedByTime, sC1, pQ, pR]) (by simp [sC1]) rfl le_rfl⟩

/-- C5: on an empty or zero-length sequence, `tick()` changes nothing and
invokes no callback; conversely any tick that fires a callback had a
strictly positive sequence length and a non-empty sequence, so the
`fmod` in the position computation is only ever reached with a positive
divisor. -/
theorem tick_noop_on_empty_or_zero_length
    (now : ℚ) (s : SequencerState)
    (h : s.sequenceLength ≤ 0 ∨ s.sequencePoints = []) :
    tick now s = (s, []) ∧
    (∀ (now' : ℚ) (u : SequencerState), (tick now' u).2 ≠ [] →
        0 < u.sequenceLength ∧ u.sequencePoints ≠ []) := by
  constructor
  · by_cases hp : s.playing = false
    · simp [tick, hp]
    · simp [tick, hp, h]
  · intro now' u hne
    by_cases hp : u.playing = false
    · simp [tick, hp] at hne
    · by_cases hc : u.sequenceLength ≤ 0 ∨ u.sequencePoints = []
      · simp [tick, hp, hc] at hne
      · push_neg at hc
        exact hc

/-- An empty, zero-length, playing sequencer. -/
def sC5 : SequencerState :=
  { playing := true
    recording := false
    sequenceRecordStartTime := 0
    sequencePlayStartTime := 0
    sequenceLength := 0
    previousPlayPosition := 0
    currentSequenceIndex := 0
    currentIndex := 0
    sequencePoints := [] }

theorem tick_noop_on_empty_or_zero_length_witness :
    (sC5.sequenceLength ≤ 0 ∨ sC5.sequencePoints = []) ∧
    (tick 7 sC5 = (sC5, []) ∧
      (∀ (now' : ℚ) (u : SequencerState), (tick now' u).2 ≠ [] →
          0 < u.sequenceLength ∧ u.sequencePoints ≠ [])) :=
  ⟨Or.inr rfl, tick_noop_on_empty_or_zero_length 7 sC5 (Or.inr rfl)⟩

/-! ## toggleRecording / togglePlaying claims -/

theorem togglePlaying_sequencePoints (t : ℚ) (u : SequencerState) :
    (togglePlaying t u).sequencePoints = u.sequencePoints := by
  by_cases hp : u.playing <;> simp [togglePlaying, hp]

/-- C2 (the code bug): stopping a recording sets `sequence_length` to the
elapsed recording duration and clears the recording flag, but the
`// Automatically play` step is a call to `togglePlaying()`, which
*toggles*: when playback was already active on entry to the recording
(the Playing → Recording path), stopping the recording toggles playback
*off*, so the sequencer is left not playing. -/
theorem toggleRecording_stop_toggles_playback_off
    (now nowPlay : ℚ) (s s' : SequencerState)
    (hrec : s.recording = true) (hplay : s.playing = true)
    (h : ToggleRecording now nowPlay s s') :
    s'.recording = false ∧
    s'.sequenceLength = now - s.sequenceRecordStartTime ∧
    s'.playing = false := by
  simp only [ToggleRecording, hrec, if_true] at h
  obtain ⟨sorted, _, rfl⟩ := h
  simp [togglePlaying, hplay]

/-- A sequencer that is recording while playback is active. -/
def sC2 : SequencerState :=
  { playing := true
    recording := true
    sequenceRecordStartTime := 0
    sequencePlayStartTime := 0
    sequenceLength := 0
    previousPlayPosition := 0
    currentSequenceIndex := 0
    currentIndex := 0
    sequencePoints := [] }

/-- The (unique, since the sequence is empty) result of stopping the
recording of `sC2` at time 1. -/
def sC2' : SequencerState :=
  togglePlaying 1 { sC2 with sequenceLength := 1 - sC2.sequenceRecordStartTime
                             recording := false
                             sequencePoints := [] }

theorem toggleRecordingC2_rel : ToggleRecording 1 1 sC2 sC2' := by
  simp only [ToggleRecording, sC2, if_true]
  exact ⟨[], ⟨List.Perm.nil, List.Pairwise.nil⟩, rfl⟩

theorem toggleRecording_stop_toggles_playback_off_witness :
    (sC2.recording = true ∧ sC2.playing = true ∧ ToggleRecording 1 1 sC2 sC2') ∧
    (sC2'.recording = false ∧
      sC2'.sequenceLength = 1 - sC2.sequenceRecordStartTime ∧
      sC2'.playing = false) :=
  ⟨⟨rfl, rfl, toggleRecordingC2_rel⟩,
    toggleRecording_stop_toggles_playback_off 1 1 sC2 sC2' rfl rfl toggleRecordingC2_rel⟩

/-- Recorded point `'a'` at time 1 (inserted first). -/
def pA : SequencePoint := ⟨'a', 1, 0⟩

/-- Recorded point `'b'` at the same time 1 (inserted second). -/
def pB : SequencePoint := ⟨'b', 1, 5⟩

/-- A recording session that recorded `pA` then `pB` at equal times. -/
def sC3 : SequencerState :=
  { playing := false
    recording := true
    sequenceRecordStartTime := 0
    sequencePlayStartTime := 0
    sequenceLength := 0
    previousPlayPosition := 0
    currentSequenceIndex := 0
    currentIndex := 0
    sequencePoints := [pA, pB] }

/-- A post-state of stopping the recording of `sC3` in which `std::sort`
returned the equal-time points in reversed insertion order. -/
def sC3' : SequencerState :=
  togglePlaying 2 { sC3 with sequenceLength := 2 - sC3.sequenceRecordStartTime
                             recording := false
                             sequencePoints := [pB, pA] }

theorem toggleRecordingC3_rel : ToggleRecording 2 2 sC3 sC3' := by
  simp only [ToggleRecording, sC3, if_true]
  refine ⟨[pB, pA], ⟨List.Perm.swap pB pA [], ?_⟩, rfl⟩
  norm_num [sortedByTime, List.pairwise_cons, pA, pB]

/-- C3's counterexample: stopping the recording of `[pA, pB]` (equal
`time_from_start`, `pA` inserted first) may legitimately — by the
`std::sort` contract — leave the points stored as `[pB, pA]`, i.e. with
the exact-tie insertion order reversed, so the claimed stability does not
hold. -/
theorem sort_stability_counterexample :
    ToggleRecording 2 2 sC3 sC3' ∧
    sC3.sequencePoints = [pA, pB] ∧
    sC3'.sequencePoints = [pB, pA] ∧
    pA.timeFromStart = pB.timeFromStart ∧
    pA ≠ pB :=
  ⟨toggleRecordingC3_rel, rfl, rfl, rfl,
    fun h => by simpa [pA, pB] using congrArg SequencePoint.key h⟩

/-- C3 amended: after stopping a recording the stored points are
non-decreasing in `time_from_start` and are a permutation of the recorded
points; the relative order of exact ties is unspecified. -/
theorem toggleRecording_sorts_points
    (now nowPlay : ℚ) (s s' : SequencerState)
    (hrec : s.recording = true)
    (h : ToggleRecording now nowPlay s s') :
    sortedByTime s'.sequencePoints ∧ s'.sequencePoints.Perm s.sequencePoints := by
  simp only [ToggleRecording, hrec, if_true] at h
  obtain ⟨sorted, ⟨hperm, hsorted⟩, rfl⟩ := h
  rw [togglePlaying_sequencePoints]
  exact ⟨hsorted, hperm.symm⟩

theorem toggleRecording_sorts_points_witness :
    (sC3.recording = true ∧ ToggleRecording 2 2 sC3 sC3') ∧
    (sortedByTime sC3'.sequencePoints ∧ sC3'.sequencePoints.Perm sC3.sequencePoints) :=
  ⟨⟨rfl, toggleRecordingC3_rel⟩,
    toggleRecording_sorts_points 2 2 sC3 sC3' rfl toggleRecordingC3_rel⟩

/-- A playing sequencer whose tick cursor has advanced to 2. -/
def sC6 : SequencerState :=
  { playing := true
    recording := false
    sequenceRecordStartTime := 0
    sequencePlayStartTime := 0
    sequenceLength := 3
    previousPlayPosition := 0
    currentSequenceIndex := 0
    currentIndex := 2
    sequencePoints := [pQ, pR] }

/-- C6's counterexample: stopping playback does *not* reset the index that
tracks the next SequencePoint due to fire (`_currentIndex`, the one
`tick()` reads); it stays at its pre-stop value (here 2).  Only the unused
`_currentSequenceIndex` is zeroed. -/
theorem togglePlaying_stop_cursor_counterexample :
    (togglePlaying 5 sC6).playing = false ∧
    (togglePlaying 5 sC6).currentIndex = 2 ∧
    ¬ (togglePlaying 5 sC6).currentIndex = 0 := by
  refine ⟨rfl, rfl, by simp [togglePlaying, sC6]⟩

/-- C6 amended: stopping playback clears the playing flag, zeroes the
auxiliary `_currentSequenceIndex`, leaves the tick cursor `_currentIndex`
untouched, and leaves the recorded points and `sequence_length` intact;
the tick cursor is reset to 0 when playback is next started, so the
sequence replays from the beginning. -/
theorem togglePlaying_stop_preserves_data
    (now : ℚ) (s : SequencerState) (h : s.playing = true) :
    (togglePlaying now s).playing = false ∧
    (togglePlaying now s).currentSequenceIndex = 0 ∧
    (togglePlaying now s).currentIndex = s.currentIndex ∧
    (togglePlaying now s).sequencePoints = s.sequencePoints ∧
    (togglePlaying now s).sequenceLength = s.sequenceLength ∧
    ∀ t : ℚ, (togglePlaying t (togglePlaying now s)).currentIndex = 0 := by
  simp [togglePlaying, h]

theorem togglePlaying_stop_preserves_data_witness :
    (sC6.playing = true) ∧
    ((togglePlaying 5 sC6).playing = false ∧
      (togglePlaying 5 sC6).currentSequenceIndex = 0 ∧
      (togglePlaying 5 sC6).currentIndex = sC6.currentIndex ∧
      (togglePlaying 5 sC6).sequencePoints = sC6.sequencePoints ∧
      (togglePlaying 5 sC6).sequenceLength = sC6.sequenceLength ∧
      ∀ t : ℚ, (togglePlaying t (togglePlaying 5 sC6)).currentIndex = 0) :=
  ⟨rfl, togglePlaying_stop_preserves_data 5 sC6 rfl⟩

/-! ## Registry (AudioProcessor) claims -/

theorem lookupAssoc_insertAssoc_self {α : Type} (k : Char) (v : α) :
    ∀ l : List (Char × α), lookupAssoc k (insertAssoc k v l) = some v := by
  intro l
  induction l with
  | nil => simp [insertAssoc, lookupAssoc]
  | cons hd tl ih =>
      by_cases hk : hd.1 = k
      · simp [insertAssoc, lookupAssoc, hk]
      · simp [insertAssoc, lookupAssoc, hk, ih]

theorem insertAssoc_length_of_lookup {α : Type} {k : Char} {w : α} (v : α) :
    ∀ {l : List (Char × α)}, lookupAssoc k l = some w →
      (insertAssoc k v l).length = l.length := by
  intro l
  induction l with
  | nil => intro h; simp [lookupAssoc] at h
  | cons hd tl ih =>
      intro h
      by_cases hk : hd.1 = k
      · simp [insertAssoc, hk]
      · rw [lookupAssoc, if_neg hk] at h
        simp [insertAssoc, hk, ih h]

/-- C7: per-key failure isolation at the registry boundary.  If the
pipeline constructor throws — file missing or backend preparation
failing — `registerSample` catches it and leaves the pipeline map wholly
untouched (that key unbound, every other binding as before); and a
trigger for a key with no bound pipeline returns `false` and changes
nothing. -/
theorem register_failure_isolated :
    (∀ (env : Env) (key : Char) (path : String) (vol : ℚ) (ap : AudioProcessor),
        env.fileExists path = false ∨ env.prepareOk path = false →
        (registerSample env key path vol ap).pipelines = ap.pipelines) ∧
    (∀ (key : Char) (semitones : ℚ) (ap : AudioProcessor),
        lookupAssoc key ap.pipelines = none →
        playSampleWithPitch key semitones ap = (ap, false)) := by
  constructor
  · intro env key path vol ap h
    by_cases hf : env.fileExists path = false
    · simp [registerSample, AudioPipeline.create, hf]
    · rcases h with h | h
      · exact absurd h hf
      · simp [registerSample, AudioPipeline.create, hf, h]
  · intro key semitones ap h
    simp [playSampleWithPitch, h]

/-- A world in which only the file `"k"` exists and the backend always
prepares successfully. -/
def envC7 : Env := ⟨fun p => p == "k", fun _ => true⟩

/-- An empty registry. -/
def apEmpty : AudioProcessor := ⟨[], []⟩

/-- Registry after successfully registering key `'a'` to the file `"k"`. -/
def apC7 : AudioProcessor := registerSample envC7 'a' "k" 1 apEmpty

theorem register_failure_isolated_witness :
    (envC7.fileExists "miss" = false ∧ lookupAssoc 'b' apC7.pipelines = none) ∧
    ((registerSample envC7 'b' "miss" 1 apC7).pipelines = apC7.pipelines ∧
      playSampleWithPitch 'b' 0 apC7 = (apC7, false)) :=
  ⟨⟨rfl, rfl⟩,
    register_failure_isolated.1 envC7 'b' "miss" 1 apC7 (Or.inl rfl),
    register_failure_isolated.2 'b' 0 apC7 rfl⟩

/-- A world in which every file exists and prepares. -/
def envC8 : Env := ⟨fun _ => true, fun _ => true⟩

/-- Registry with key `'k'` bound to a prepared voice for `"kick"`. -/
def apC8 : AudioProcessor := registerSample envC8 'k' "kick" 1 apEmpty

/-- The freshly prepared voice bound to `'k'` in `apC8`. -/
def plK : AudioPipeline :=
  { filePath := "kick"
    volume := 1
    pitchSemitones := 0
    currentRatePitch := 0
    position := 0
    isPlaying := false
    pipelineCreated := true }

/-- C8: `start()` on a prepared voice succeeds and applies the rate
`2^(semitones/12)` of the most recent `setPitch`, seeking the single
pipeline back to position 0 (restart, not a second overlapping instance:
triggering never changes the number of bound pipelines); in particular
`trigger('k', 12)` immediately followed by `trigger('k', -12)` leaves the
one voice playing from position 0 at rate `2^(-12/12) = 1/2`. -/
theorem start_applies_latest_pitch_rate :
    (∀ (pl : AudioPipeline) (semitones : ℚ), pl.pipelineCreated = true →
        ((AudioPipeline.setPitch semitones pl).start).2 = true ∧
        ((AudioPipeline.setPitch semitones pl).start).1.currentRatePitch = semitones ∧
        ((AudioPipeline.setPitch semitones pl).start).1.position = 0 ∧
        ((AudioPipeline.setPitch semitones pl).start).1.isPlaying = true) ∧
    (∀ (key : Char) (semitones : ℚ) (ap : AudioProcessor) (pl : AudioPipeline),
        lookupAssoc key ap.pipelines = some pl →
        ((playSampleWithPitch key semitones ap).1).pipelines.length
          = ap.pipelines.length) ∧
    (∃ pl, lookupAssoc 'k'
          ((playSampleWithPitch 'k' (-12)
              ((playSampleWithPitch 'k' 12 apC8).1)).1).pipelines = some pl ∧
        pl.isPlaying = true ∧ pl.position = 0 ∧ pl.currentRatePitch = -12 ∧
        (((playSampleWithPitch 'k' (-12)
              ((playSampleWithPitch 'k' 12 apC8).1)).1).pipelines.countP
            (fun e => decide (e.1 = 'k'))) = 1 ∧
        (∃ z : ℤ, (pl.currentRatePitch / 12 : ℚ) = (z : ℤ) ∧ (2:ℚ) ^ z = 1/2)) := by
  refine ⟨?_, ?_, ?_⟩
  · intro pl semitones hc
    simp [AudioPipeline.start, AudioPipeline.setPitch, hc]
  · intro key semitones ap pl h
    simp only [playSampleWithPitch, h]
    exact insertAssoc_length_of_lookup _ h
  · refine ⟨{ filePath := "kick"
              volume := 1
              pitchSemitones := -12
              currentRatePitch := -12
              position := 0
              isPlaying := true
              pipelineCreated := true }, rfl, rfl, rfl, rfl, rfl, -1, ?_, ?_⟩
    · norm_num
    · norm_num

theorem start_applies_latest_pitch_rate_witness :
    (plK.pipelineCreated = true ∧ lookupAssoc 'k' apC8.pipelines = some plK) ∧
    (((AudioPipeline.setPitch 12 plK).start).2 = true ∧
      ((AudioPipeline.setPitch 12 plK).start).1.currentRatePitch = 12 ∧
      ((AudioPipeline.setPitch 12 plK).start).1.position = 0 ∧
      ((AudioPipeline.setPitch 12 plK).start).1.isPlaying = true) ∧
    ((playSampleWithPitch 'k' 12 apC8).1).pipelines.length = apC8.pipelines.length :=
  ⟨⟨rfl, rfl⟩,
    start_applies_latest_pitch_rate.1 plK 12 rfl,
    start_applies_latest_pitch_rate.2.1 'k' 12 apC8 plK rfl⟩

/-- A prepared voice for the volume claims. -/
def plC9 : AudioPipeline :=
  { filePath := "v"
    volume := 1
    pitchSemitones := 0
    currentRatePitch := 0
    position := 0
    isPlaying := false
    pipelineCreated := true }

/-- C9's counterexample: `setVolume(2)` stores 2, which is outside `[0,1]`
and differs from the clamped value `max 0 (min 1 2) = 1`: the source
performs no clamping. -/
theorem setVolume_clamp_counterexample :
    (AudioPipeline.setVolume 2 plC9).volume = 2 ∧
    ¬ (AudioPipeline.setVolume 2 plC9).volume ≤ 1 ∧
    max (0:ℚ) (min 1 2) = 1 ∧
    (AudioPipeline.setVolume 2 plC9).volume ≠ max 0 (min 1 2) := by
  refine ⟨rfl, ?_, ?_, ?_⟩
  · norm_num [AudioPipeline.setVolume, plC9]
  · norm_num
  · norm_num [AudioPipeline.setVolume, plC9]

/-- C9 amended: `setVolume(level)` stores the level exactly as given, with
no clamping; levels outside `[0,1]` are stored out of range. -/
theorem setVolume_stores_unclamped (vol : ℚ) (pl : AudioPipeline) :
    (AudioPipeline.setVolume vol pl).volume = vol := rfl

/-- C10: the unpitched `playSample` calls `setPitch(0.0)` before
`start()`, so a plain trigger always restarts the voice at pitch 0 —
playback rate `2^(0/12) = 1` — whatever pitch an earlier pitched trigger
left behind. -/
theorem playSample_resets_pitch
    (key : Char) (ap : AudioProcessor) (pl : AudioPipeline)
    (h : lookupAssoc key ap.pipelines = some pl)
    (hc : pl.pipelineCreated = true) :
    (playSample key ap).2 = true ∧
    ∃ pl', lookupAssoc key (playSample key ap).1.pipelines = some pl' ∧
      pl'.pitchSemitones = 0 ∧ pl'.currentRatePitch = 0 ∧ pl'.isPlaying = true ∧
      ∃ z : ℤ, (pl'.currentRatePitch / 12 : ℚ) = (z : ℤ) ∧ (2:ℚ) ^ z = 1 := by
  have hstart : (AudioPipeline.setPitch 0 pl).start =
      ({ pl with pitchSemitones := 0
                 currentRatePitch := 0
                 position := 0
                 isPlaying := true }, true) := by
    simp [AudioPipeline.start, AudioPipeline.setPitch, hc]
  simp only [playSample, h, hstart]
  refine ⟨by trivial, _, lookupAssoc_insertAssoc_self _ _ _, rfl, rfl, rfl, 0, ?_, ?_⟩
  · norm_num
  · norm_num

theorem playSample_resets_pitch_witness :
    (lookupAssoc 'k' apC8.pipelines = some plK ∧ plK.pipelineCreated = true) ∧
    ((playSample 'k' apC8).2 = true ∧
      ∃ pl', lookupAssoc 'k' (playSample 'k' apC8).1.pipelines = some pl' ∧
        pl'.pitchSemitones = 0 ∧ pl'.currentRatePitch = 0 ∧ pl'.isPlaying = true ∧
        ∃ z : ℤ, (pl'.currentRatePitch / 12 : ℚ) = (z : ℤ) ∧ (2:ℚ) ^ z = 1) :=
  ⟨⟨rfl, rfl⟩, playSample_resets_pitch 'k' apC8 plK rfl rfl⟩
